import Mathlib

/-!
Shallow embedding of the virtual memory space manager of the `maestro` kernel
(`src/process/mem_space/mod.rs`), together with theorems settling the spec's
claims about it.

Modelling conventions:
* Machine addresses and sizes are `Nat` (byte addresses, page counts).
* The ordered binary-tree containers (`Map<K, V>`) are modelled as association
  lists kept sorted by key; `insert` replaces an existing binding, matching the
  ordinary map semantics the code relies on (`insert` is supposed to return the
  previous value, per the source's own TODO comment).
* Fallible allocations (index inserts, frame allocation, page-table updates)
  consume one entry of an explicit out-of-memory oracle; `false` injects an
  `AllocError` at that allocation site, and an exhausted oracle always succeeds.
* Rust methods that mutate `self` become functions from state to state; a
  fallible method returns `Except Unit α × State × Oracle` so that mutations
  performed before an error are visible, exactly as in the source.
* `gap.rs` and `mapping.rs` (the `MemGap`/`MemMapping` internals), the x86
  page-fault code bits and the physical allocator are not among the provided
  sources; their definitions are modelled from the spec and say so in their
  doc comments.
-/

set_option autoImplicit false

namespace Maestro

/-- Byte address in the virtual (or physical) address space. -/
abbrev Addr := Nat

/-- Modelled from the spec: `memory::PAGE_SIZE` is defined outside the provided
sources; the spec's scenarios fix `PAGE_SIZE = 4096`. -/
def PAGE_SIZE : Nat := 4096

/-- Modelled from the spec: `memory::ALLOC_BEGIN = 0x1000` (spec section 8). -/
def ALLOC_BEGIN : Addr := 0x1000

/-- Modelled from the spec: `memory::PROCESS_END = 0xC0000000` (spec section 8). -/
def PROCESS_END : Addr := 0xC0000000

/-- Flag telling that a memory mapping can be written to. -/
def MAPPING_FLAG_WRITE : Nat := 0b00001

/-- Flag telling that a memory mapping can contain executable instructions. -/
def MAPPING_FLAG_EXEC : Nat := 0b00010

/-- Flag telling that a memory mapping is accessible from userspace. -/
def MAPPING_FLAG_USER : Nat := 0b00100

/-- Modelled from the spec: the x86 page-fault error code bits (`vmem::x86`)
are outside the provided sources; per the spec they follow the standard x86
encoding: PRESENT. -/
def PAGE_FAULT_PRESENT : Nat := 0b001

/-- Modelled from the spec: standard x86 page-fault WRITE bit. -/
def PAGE_FAULT_WRITE : Nat := 0b010

/-- Modelled from the spec: standard x86 page-fault USER bit. -/
def PAGE_FAULT_USER : Nat := 0b100

/-- Out-of-memory oracle: each fallible allocation consumes one entry; a
`false` entry makes that allocation fail with `AllocError`. The empty oracle
always succeeds. -/
abbrev Oracle := List Bool

/-- Consume one oracle entry (`true` = the allocation succeeds). -/
def Oracle.tick : Oracle → Bool × Oracle
  | [] => (true, [])
  | b :: r => (b, r)

/-- The all-success oracle. -/
def Oracle.ok : Oracle := []

/-- `AllocResult<T>`: `Except Unit` stands for `Result<T, AllocError>`. -/
abbrev AllocResult (α : Type) := Except Unit α

instance {ε α : Type} [DecidableEq ε] [DecidableEq α] : DecidableEq (Except ε α) := fun a b =>
  match a, b with
  | .ok x, .ok y =>
    if h : x = y then .isTrue (h ▸ rfl) else .isFalse fun hc => h (Except.ok.inj hc)
  | .error x, .error y =>
    if h : x = y then .isTrue (h ▸ rfl) else .isFalse fun hc => h (Except.error.inj hc)
  | .ok _, .error _ => .isFalse fun hc => Except.noConfusion hc
  | .error _, .ok _ => .isFalse fun hc => Except.noConfusion hc

section Assoc

variable {κ α : Type} [DecidableEq κ]

/-- Ordered-map insert on a sorted association list (the binary tree `Map`
keeps one binding per key; inserting an existing key replaces its value).
`lt` is the key order. -/
def aInsert (lt : κ → κ → Bool) (k : κ) (v : α) : List (κ × α) → List (κ × α)
  | [] => [(k, v)]
  | (k', v') :: t =>
    if lt k k' then (k, v) :: (k', v') :: t
    else if k = k' then (k, v) :: t
    else (k', v') :: aInsert lt k v t

/-- Ordered-map removal: drops the binding of `k`, if any. -/
def aRemove (k : κ) : List (κ × α) → List (κ × α)
  | [] => []
  | (k', v') :: t => if k = k' then t else (k', v') :: aRemove k t

/-- Ordered-map removal returning the removed value (`Map::remove`). -/
def aPop (k : κ) : List (κ × α) → Option (α × List (κ × α))
  | [] => none
  | (k', v') :: t =>
    if k = k' then some (v', t)
    else match aPop k t with
      | none => none
      | some (v, t') => some (v, (k', v') :: t')

/-- Ordered-map lookup (`Map::get`). -/
def aGet (k : κ) : List (κ × α) → Option α
  | [] => none
  | (k', v') :: t => if k = k' then some v' else aGet k t

/-- `Map::append`: moves every binding of `src` into `dst` (bindings of `src`
win on key collision). -/
def aAppend (lt : κ → κ → Bool) (dst src : List (κ × α)) : List (κ × α) :=
  src.foldl (fun d e => aInsert lt e.1 e.2 d) dst

end Assoc

/-- Strict key order of `gaps` / `mappings` (keys are begin addresses). -/
def natLt (a b : Nat) : Bool := a < b

/-- Strict lexicographic key order of `gaps_size` (keys are `(size, begin)`
pairs, ordered by size and then by beginning address). -/
def sizeLt (a b : Nat × Addr) : Bool := a.1 < b.1 || (a.1 = b.1 && a.2 < b.2)

/-- Physical-memory side state: the set of frames handed out by the buddy
allocator, the reference counter's table, and the next fresh frame the
allocator will return. Modelled from the spec: the buddy allocator and
`PhysRefCounter` are outside the provided sources; spec sections 4.A and 6
give their contracts. -/
structure PhysState where
  allocated : List Addr
  counts : List (Addr × Nat)
  next : Addr
  deriving DecidableEq, Repr

/-- Modelled from the spec: `buddy::alloc(0, FLAG_ZONE_TYPE_USER)` returns a
fresh frame or fails with an allocation error leaving the allocator unchanged. -/
def buddyAlloc (st : PhysState) (o : Oracle) : AllocResult Addr × PhysState × Oracle :=
  let (ok, o) := o.tick
  if ok then
    (.ok st.next, { st with allocated := st.next :: st.allocated, next := st.next + PAGE_SIZE }, o)
  else (.error (), st, o)

/-- Modelled from the spec: `buddy::free(ptr, 0)` returns the frame to the
allocator; it never fails. -/
def buddyFree (ptr : Addr) (st : PhysState) : PhysState :=
  { st with allocated := st.allocated.erase ptr }

/-- Modelled from the spec: `PhysRefCounter::increment` may fail with
out-of-memory when a new entry must be inserted; on success the count includes
the frame; on failure the table is unchanged. -/
def prcIncrement (p : Addr) (st : PhysState) (o : Oracle) :
    AllocResult Unit × PhysState × Oracle :=
  match aGet p st.counts with
  | some n => (.ok (), { st with counts := aInsert natLt p (n + 1) st.counts }, o)
  | none =>
    let (ok, o) := o.tick
    if ok then (.ok (), { st with counts := aInsert natLt p 1 st.counts }, o)
    else (.error (), st, o)

/-- Modelled from the spec: `PhysRefCounter::decrement` never fails; no effect
if absent; removes the entry when the count reaches zero. -/
def prcDecrement (p : Addr) (st : PhysState) : PhysState :=
  match aGet p st.counts with
  | some n => if n ≤ 1 then { st with counts := aRemove p st.counts }
              else { st with counts := aInsert natLt p (n - 1) st.counts }
  | none => st

/-- Modelled from the spec: `PhysRefCounter::can_free` is true iff no
outstanding reference remains. -/
def prcCanFree (p : Addr) (st : PhysState) : Bool :=
  (aGet p st.counts).isNone

/-- The residence of a memory mapping (`MapResidence`). File locations and
swap files are opaque identifiers; `Static` carries the physical frame
addresses of its page list. -/
inductive MapResidence where
  | Normal : MapResidence
  | Static (pages : List Addr) : MapResidence
  | File (location : Nat) (off : Nat) : MapResidence
  | Swap (swap_file : Nat) (slot_id : Nat) (page_off : Nat) : MapResidence
  deriving DecidableEq, Repr

/-- `MapResidence::offset_add`: adds `pages` pages to the offset of the
residence, if applicable (`File` advances its byte offset, `Swap` its page
offset; `Normal` and `Static` are unchanged). -/
def MapResidence.offset_add : MapResidence → Nat → MapResidence
  | .File location off, pages => .File location (off + pages * PAGE_SIZE)
  | .Swap f s p, pages => .Swap f s (p + pages)
  | r, _ => r

/-- `MapResidence::alloc`: allocate one frame from the buddy allocator and
increment its reference count; if the increment fails the frame is freed
before the error is returned. -/
def MapResidence.alloc (st : PhysState) (o : Oracle) :
    AllocResult Addr × PhysState × Oracle :=
  match buddyAlloc st o with
  | (.error e, st, o) => (.error e, st, o)
  | (.ok ptr, st, o) =>
    match prcIncrement ptr st o with
    | (.ok _, st, o) => (.ok ptr, st, o)
    | (.error e, st, o) => (.error e, buddyFree ptr st, o)

/-- `MapResidence::free`: decrement the frame's reference count and return it
to the buddy allocator when no reference remains. -/
def MapResidence.free (ptr : Addr) (st : PhysState) : PhysState :=
  let st := prcDecrement ptr st
  if prcCanFree ptr st then buddyFree ptr st else st

/-- `MapResidence::alloc_page`: allocates a physical page for the given
offset. `Static` returns the pre-existing frame for in-range offsets and
falls back to a fresh anonymous frame beyond the page list. The `File` and
`Swap` arms are `todo!()` in the source and yield no result (`none`). -/
def MapResidence.alloc_page (r : MapResidence) (off : Nat) (st : PhysState) (o : Oracle) :
    Option (AllocResult Addr × PhysState × Oracle) :=
  match r with
  | .Normal => some (MapResidence.alloc st o)
  | .Static pages =>
    if off < pages.length then some (.ok (pages.getD off 0), st, o)
    else some (MapResidence.alloc st o)
  | .File _ _ => none
  | .Swap _ _ _ => none

/-- Modelled from the spec: `gap.rs` is not among the provided sources. A gap
is a contiguous, page-aligned free range `{ begin, size in pages }`
(the fields are those `mod.rs` constructs directly). -/
structure MemGap where
  begin : Addr
  size : Nat
  deriving DecidableEq, Repr

/-- The gap's begin address. -/
def MemGap.get_begin (g : MemGap) : Addr := g.begin

/-- The gap's size in pages. -/
def MemGap.get_size (g : MemGap) : Nat := g.size

/-- One byte past the gap's last byte. -/
def MemGap.get_end (g : MemGap) : Addr := g.begin + g.size * PAGE_SIZE

/-- Modelled from the spec: the page offset of `addr` inside the gap. -/
def MemGap.get_page_offset_for (g : MemGap) (addr : Addr) : Nat :=
  (addr - g.begin) / PAGE_SIZE

/-- Modelled from the spec: `consume(offset_in_pages, size_in_pages)` splits
the gap around a sub-range; the caller receives up to two smaller gaps (each
non-empty) representing what remains free on the left and on the right. -/
def MemGap.consume (g : MemGap) (off size : Nat) : Option MemGap × Option MemGap :=
  (if 0 < off then some ⟨g.begin, off⟩ else none,
   if off + size < g.size then
     some ⟨g.begin + (off + size) * PAGE_SIZE, g.size - (off + size)⟩
   else none)

/-- Modelled from the spec: `merge(other)` fuses two address-adjacent gaps. -/
def MemGap.merge (g other : MemGap) : MemGap :=
  ⟨min g.begin other.begin, g.size + other.size⟩

/-- Modelled from the spec: `mapping.rs` is not among the provided sources. A
mapping is a contiguous, page-aligned used range with flags and a residence
(the shared page-table handle is not part of the collection state). -/
structure MemMapping where
  begin : Addr
  size : Nat
  flags : Nat
  residence : MapResidence
  deriving DecidableEq, Repr

/-- `MemMapping::new`. -/
def MemMapping.new (addr : Addr) (size flags : Nat) (residence : MapResidence) : MemMapping :=
  ⟨addr, size, flags, residence⟩

/-- The mapping's begin address. -/
def MemMapping.get_begin (m : MemMapping) : Addr := m.begin

/-- The mapping's size in pages. -/
def MemMapping.get_size (m : MemMapping) : Nat := m.size

/-- The mapping's flags. -/
def MemMapping.get_flags (m : MemMapping) : Nat := m.flags

/-- Modelled from the spec: `partial_unmap(offset, count)` cuts a window out
of a mapping, returning up to two surviving mapping fragments and the gap the
freed middle becomes; the tail fragment's residence is offset-adjusted. -/
def MemMapping.partial_unmap (m : MemMapping) (off count : Nat) :
    Option MemMapping × Option MemGap × Option MemMapping :=
  (if 0 < off then some { m with size := off } else none,
   some ⟨m.begin + off * PAGE_SIZE, count⟩,
   if off + count < m.size then
     some { m with
            begin := m.begin + (off + count) * PAGE_SIZE,
            size := m.size - (off + count),
            residence := m.residence.offset_add (off + count) }
   else none)

/-- Enumeration of constraints for the selection of the virtual address for a
memory mapping (`MapConstraint`). -/
inductive MapConstraint where
  | Fixed (addr : Addr) : MapConstraint
  | Hint (addr : Addr) : MapConstraint
  | None : MapConstraint
  deriving DecidableEq, Repr

/-- `MapConstraint::is_valid`. -/
def MapConstraint.is_valid : MapConstraint → Bool
  | .Fixed addr => addr ≤ PROCESS_END && addr % PAGE_SIZE = 0
  | .Hint addr => addr % PAGE_SIZE = 0
  | .None => true

/-- The set of mapped regions and free gaps of a memory space
(`MemSpaceState`): the two gap indices and the mapping index, each an ordered
binary-tree map modelled as a sorted association list. -/
structure MemSpaceState where
  gaps : List (Addr × MemGap)
  gaps_size : List ((Nat × Addr) × Unit)
  mappings : List (Addr × MemMapping)
  deriving DecidableEq, Repr

/-- The empty state (`Default`). -/
def MemSpaceState.empty : MemSpaceState := ⟨[], [], []⟩

/-- `MemSpaceState::insert_gap`: insert the gap into `gaps`, then its
`(size, begin)` key into `gaps_size`; if the second insert fails, the first
is rolled back before the error is returned. Each index insert consumes one
oracle entry. -/
def MemSpaceState.insert_gap (s : MemSpaceState) (gap : MemGap) (o : Oracle) :
    AllocResult Unit × MemSpaceState × Oracle :=
  let gap_ptr := gap.get_begin
  let (ok₁, o) := o.tick
  if !ok₁ then (.error (), s, o)
  else
    let s := { s with gaps := aInsert natLt gap_ptr gap s.gaps }
    let (ok₂, o) := o.tick
    if !ok₂ then (.error (), { s with gaps := aRemove gap_ptr s.gaps }, o)
    else (.ok (), { s with gaps_size := aInsert sizeLt (gap.get_size, gap_ptr) () s.gaps_size }, o)

/-- `MemSpaceState::remove_gap`: removes the gap beginning at `gap_begin`
from both indices, returning the removed gap. -/
def MemSpaceState.remove_gap (s : MemSpaceState) (gap_begin : Addr) :
    Option MemGap × MemSpaceState :=
  match aPop gap_begin s.gaps with
  | none => (none, s)
  | some (g, gaps') =>
    (some g, { s with gaps := gaps', gaps_size := aRemove (g.get_size, gap_begin) s.gaps_size })

/-- `MemSpaceState::get_gap`: a gap of size at least `size` — the first entry
of `gaps_size` at or after key `(size, null)` (first fit by size, then by
address), resolved through `gaps`. -/
def MemSpaceState.get_gap (s : MemSpaceState) (size : Nat) : Option MemGap :=
  match s.gaps_size.find? (fun e => size ≤ e.1.1) with
  | none => none
  | some e => aGet e.1.2 s.gaps

/-- `MemSpaceState::get_gap_for_ptr`: the gap containing the virtual address
`ptr` (the binary-tree `cmp_get` by range containment, rendered as a scan). -/
def MemSpaceState.get_gap_for_ptr (s : MemSpaceState) (ptr : Addr) : Option MemGap :=
  match s.gaps.find? (fun e => e.1 ≤ ptr && ptr < e.1 + e.2.get_size * PAGE_SIZE) with
  | none => none
  | some e => some e.2

/-- `MemSpaceState::get_mapping_for_ptr`: the mapping containing `ptr`. -/
def MemSpaceState.get_mapping_for_ptr (s : MemSpaceState) (ptr : Addr) : Option MemMapping :=
  match s.mappings.find? (fun e => e.1 ≤ ptr && ptr < e.1 + e.2.get_size * PAGE_SIZE) with
  | none => none
  | some e => some e.2

/-- A transaction to be performed on a memory space
(`MemSpaceTransaction`): tentative insertions staged in a buffer state, plus
the begin addresses of mappings and gaps to remove at commit. -/
structure MemSpaceTransaction where
  buffer_state : MemSpaceState
  remove_mappings : List Addr
  remove_gaps : List Addr
  deriving DecidableEq, Repr

/-- The empty transaction (`Default`). -/
def MemSpaceTransaction.empty : MemSpaceTransaction := ⟨MemSpaceState.empty, [], []⟩

/-- `HashMap::insert` of a key with unit value: a set insert, fallible (one
oracle entry). -/
def hashInsert (k : Addr) (l : List Addr) (o : Oracle) :
    AllocResult Unit × List Addr × Oracle :=
  let (ok, o) := o.tick
  if !ok then (.error (), l, o)
  else if l.contains k then (.ok (), l, o)
  else (.ok (), l ++ [k], o)

/-- `MemSpaceTransaction::commit`: removals first, then the buffered inserts
are moved into the live indices; commit is infallible. -/
def MemSpaceTransaction.commit (t : MemSpaceTransaction) (live : MemSpaceState) : MemSpaceState :=
  let live := { live with
    mappings := t.remove_mappings.foldl (fun m k => aRemove k m) live.mappings }
  let live := t.remove_gaps.foldl (fun s k => (s.remove_gap k).2) live
  { live with
    gaps := aAppend natLt live.gaps t.buffer_state.gaps,
    gaps_size := aAppend sizeLt live.gaps_size t.buffer_state.gaps_size,
    mappings := aAppend natLt live.mappings t.buffer_state.mappings }

/-- A virtual memory space (`MemSpace`): the collection state, the used-page
counter and the `brk` pointers (the page-table handle carries no collection
state and is not modelled). -/
structure MemSpace where
  state : MemSpaceState
  vmem_usage : Nat
  brk_init : Addr
  brk_ptr : Addr
  deriving DecidableEq, Repr

/-- `MemSpace::new` on the success path: the default gap spanning
`[ALLOC_BEGIN, PROCESS_END)` is inserted into both gap indices. -/
def MemSpace.fresh : MemSpace :=
  let size := (PROCESS_END - ALLOC_BEGIN) / PAGE_SIZE
  { state := { gaps := [(ALLOC_BEGIN, ⟨ALLOC_BEGIN, size⟩)],
               gaps_size := [((size, ALLOC_BEGIN), ())],
               mappings := [] },
    vmem_usage := 0,
    brk_init := 0,
    brk_ptr := 0 }

/-- Stage an optional gap insertion into the transaction's buffer state
(`transaction.buffer_state.insert_gap(new_gap)?`). -/
def MemSpaceTransaction.stage_gap (t : MemSpaceTransaction) (g : Option MemGap) (o : Oracle) :
    AllocResult Unit × MemSpaceTransaction × Oracle :=
  match g with
  | none => (.ok (), t, o)
  | some g =>
    match t.buffer_state.insert_gap g o with
    | (r, bs, o) => (r, { t with buffer_state := bs }, o)

/-- Stage a mapping insertion into the transaction's buffer state
(`transaction.buffer_state.mappings.insert(..)?`, one fallible index insert). -/
def MemSpaceTransaction.stage_mapping (t : MemSpaceTransaction) (m : MemMapping) (o : Oracle) :
    AllocResult Unit × MemSpaceTransaction × Oracle :=
  let (ok, o) := o.tick
  if !ok then (.error (), t, o)
  else
    (.ok (),
     { t with buffer_state :=
        { t.buffer_state with
          mappings := aInsert natLt m.get_begin m t.buffer_state.mappings } },
     o)

/-- The body of one `unmap_impl` loop iteration once the covering mapping is
found: stage the mapping's removal, cut it with `partial_unmap`, stage the
surviving fragments, and (unless `brk`) create and eagerly merge the freed
gap. Returns the advanced page index and freed-page count. -/
def unmapStep (s : MemSpaceState) (size i freed : Nat) (brk : Bool) (page_ptr : Addr)
    (mapping : MemMapping) (t : MemSpaceTransaction) (o : Oracle) :
    AllocResult (Nat × Nat) × MemSpaceTransaction × Oracle :=
  let mapping_ptr := mapping.get_begin
  match hashInsert mapping_ptr t.remove_mappings o with
  | (.error e, rm, o) => (.error e, { t with remove_mappings := rm }, o)
  | (.ok _, rm, o) =>
    let t := { t with remove_mappings := rm }
    let b := (page_ptr - mapping_ptr) / PAGE_SIZE
    let pages := min (size - i) (mapping.get_size - b)
    let i' := i + pages
    match mapping.partial_unmap b pages with
    | (prev, gap?, next) =>
      match (match prev with
             | none => (.ok (), t, o)
             | some p => t.stage_mapping p o :
             AllocResult Unit × MemSpaceTransaction × Oracle) with
      | (.error e, t, o) => (.error e, t, o)
      | (.ok _, t, o) =>
        match (match next with
               | none => (.ok (), t, o)
               | some n => t.stage_mapping n o :
               AllocResult Unit × MemSpaceTransaction × Oracle) with
        | (.error e, t, o) => (.error e, t, o)
        | (.ok _, t, o) =>
          if brk then (.ok (i', freed), t, o)
          else
            match gap? with
            | none => (.ok (i', freed), t, o)
            | some gap =>
              let freed := freed + gap.get_size
              let prev_gap := if gap.get_begin ≠ 0 then s.get_gap_for_ptr (gap.get_begin - 1)
                              else none
              match (match prev_gap with
                     | none => (.ok gap, t, o)
                     | some p =>
                       match hashInsert p.get_begin t.remove_gaps o with
                       | (.error e, rg, o) => (.error e, { t with remove_gaps := rg }, o)
                       | (.ok _, rg, o) => (.ok (gap.merge p), { t with remove_gaps := rg }, o) :
                     AllocResult MemGap × MemSpaceTransaction × Oracle) with
              | (.error e, t, o) => (.error e, t, o)
              | (.ok gap, t, o) =>
                match (match s.get_gap_for_ptr gap.get_end with
                       | none => (.ok gap, t, o)
                       | some n =>
                         match hashInsert n.get_begin t.remove_gaps o with
                         | (.error e, rg, o) => (.error e, { t with remove_gaps := rg }, o)
                         | (.ok _, rg, o) => (.ok (gap.merge n), { t with remove_gaps := rg }, o) :
                       AllocResult MemGap × MemSpaceTransaction × Oracle) with
                | (.error e, t, o) => (.error e, t, o)
                | (.ok gap, t, o) =>
                  match t.stage_gap (some gap) o with
                  | (.error e, t, o) => (.error e, t, o)
                  | (.ok _, t, o) => (.ok (i', freed), t, o)

/-- The `while i < size` loop of `unmap_impl`, reading the (unchanged) live
state `s` and staging into the transaction. `fuel` bounds the iteration count;
every iteration advances `i` by at least one page, so `size + 1` fuel is never
exhausted on inputs the source reaches. -/
def unmapLoop (s : MemSpaceState) (ptr : Addr) (size : Nat) (brk : Bool) :
    Nat → Nat → Nat → MemSpaceTransaction → Oracle →
    AllocResult Nat × MemSpaceTransaction × Oracle
  | 0, _, freed, t, o => (.ok freed, t, o)
  | fuel + 1, i, freed, t, o =>
    if i < size then
      let page_ptr := ptr + i * PAGE_SIZE
      match s.get_mapping_for_ptr page_ptr with
      | none => unmapLoop s ptr size brk fuel (i + 1) freed t o
      | some mapping =>
        match unmapStep s size i freed brk page_ptr mapping t o with
        | (.error e, t, o) => (.error e, t, o)
        | (.ok (i', freed'), t, o) => unmapLoop s ptr size brk fuel i' freed' t o
    else (.ok freed, t, o)

/-- `MemSpace::unmap_impl`: removes every mapping intersecting the chunk,
staging all changes in the transaction; returns the number of pages freed. -/
def MemSpace.unmap_impl (ms : MemSpace) (t : MemSpaceTransaction) (ptr : Addr) (size : Nat)
    (brk : Bool) (o : Oracle) : AllocResult Nat × MemSpaceTransaction × Oracle :=
  unmapLoop ms.state ptr size brk (size + 1) 0 0 t o

/-- Gap selection in `MemSpace::map`: `Fixed` pre-emptively stages unmaps and
builds a fictive gap; `Hint` uses the gap containing the address when the
mapping fits there, otherwise any large-enough gap; `None` takes any
large-enough gap. Also returns the running `vmem_usage` (decremented by the
pages `unmap_impl` freed, for `Fixed`). -/
def MemSpace.selectGap (ms : MemSpace) (c : MapConstraint) (size : Nat)
    (t : MemSpaceTransaction) (o : Oracle) :
    AllocResult (MemGap × Nat × MemSpaceTransaction × Nat) × Oracle :=
  match c with
  | .Fixed addr =>
    match ms.unmap_impl t addr size false o with
    | (.error e, _, o) => (.error e, o)
    | (.ok freed, t, o) =>
      let gap : MemGap := ⟨addr, size⟩
      (.ok (gap, gap.get_page_offset_for addr, t, ms.vmem_usage - freed), o)
  | .Hint addr =>
    match ms.state.get_gap_for_ptr addr with
    | none => (.error (), o)
    | some gap =>
      let off := gap.get_page_offset_for addr
      if off + size ≤ gap.get_size then (.ok (gap, off, t, ms.vmem_usage), o)
      else
        match ms.state.get_gap size with
        | none => (.error (), o)
        | some gap => (.ok (gap, 0, t, ms.vmem_usage), o)
  | .None =>
    match ms.state.get_gap size with
    | none => (.error (), o)
    | some gap => (.ok (gap, 0, t, ms.vmem_usage), o)

/-- `MemSpace::map`: maps a chunk of `size` pages under the given constraint.
After gap selection the consumed gap is removed from the live state, the
surviving gap halves and the new mapping are staged (each insert fallible),
the default pages are mapped (`map_default`, one fallible allocation), and
only then is the transaction committed and `vmem_usage` updated. Errors after
gap selection return with the live state as already mutated, exactly as the
source's early `?` returns do. -/
def MemSpace.map (ms : MemSpace) (map_constraint : MapConstraint) (size flags : Nat)
    (residence : MapResidence) (o : Oracle) : AllocResult Addr × MemSpace × Oracle :=
  if !map_constraint.is_valid then (.error (), ms, o)
  else
    match ms.selectGap map_constraint size MemSpaceTransaction.empty o with
    | (.error e, o) => (.error e, ms, o)
    | (.ok (gap, off, t, vu), o) =>
      let addr := gap.get_begin + off * PAGE_SIZE
      let (left_gap, right_gap) := gap.consume off size
      let ms := { ms with state := (ms.state.remove_gap gap.get_begin).2 }
      match t.stage_gap left_gap o with
      | (.error e, _, o) => (.error e, ms, o)
      | (.ok _, t, o) =>
        match t.stage_gap right_gap o with
        | (.error e, _, o) => (.error e, ms, o)
        | (.ok _, t, o) =>
          let mapping := MemMapping.new addr size flags residence
          let vu := vu + size
          match t.stage_mapping mapping o with
          | (.error e, _, o) => (.error e, ms, o)
          | (.ok _, t, o) =>
            let (okd, o) := o.tick
            if !okd then (.error (), ms, o)
            else (.ok addr, { ms with state := t.commit ms.state, vmem_usage := vu }, o)

/-- `MemSpace::unmap`: unmaps the chunk; `brk` tells whether the call comes
from the `brk` syscall. -/
def MemSpace.unmap (ms : MemSpace) (ptr : Addr) (size : Nat) (brk : Bool) (o : Oracle) :
    AllocResult Unit × MemSpace × Oracle :=
  if ptr % PAGE_SIZE ≠ 0 then (.error (), ms, o)
  else
    match ms.unmap_impl MemSpaceTransaction.empty ptr size brk o with
    | (.error e, _, o) => (.error e, ms, o)
    | (.ok freed, t, o) =>
      (.ok (), { ms with state := t.commit ms.state, vmem_usage := ms.vmem_usage - freed }, o)

/-- `util::align`: aligns a pointer upwards. -/
def alignUp (ptr : Addr) (a : Nat) : Addr := ptr + (a - ptr % a) % a

/-- Rust's `usize::div_ceil`. -/
def divCeil (a b : Nat) : Nat := (a + b - 1) / b

/-- `MemSpace::get_brk_ptr`. -/
def MemSpace.get_brk_ptr (ms : MemSpace) : Addr := ms.brk_ptr

/-- `MemSpace::set_brk_init`. -/
def MemSpace.set_brk_init (ms : MemSpace) (ptr : Addr) : MemSpace :=
  { ms with brk_init := ptr, brk_ptr := ptr }

/-- `MemSpace::set_brk_ptr`: grows by a `Fixed` map at the aligned current
top, shrinks by `unmap(.., brk = true)`; a zero page count returns `Ok`
early, before the `brk_ptr` field is updated. -/
def MemSpace.set_brk_ptr (ms : MemSpace) (ptr : Addr) (o : Oracle) :
    AllocResult Unit × MemSpace × Oracle :=
  if ms.brk_ptr ≤ ptr then
    if PROCESS_END < ptr then (.error (), ms, o)
    else
      let first := alignUp ms.brk_ptr PAGE_SIZE
      let pages := divCeil (ptr - first) PAGE_SIZE
      if pages = 0 then (.ok (), ms, o)
      else
        match ms.map (.Fixed first) pages (MAPPING_FLAG_WRITE ||| MAPPING_FLAG_USER)
            .Normal o with
        | (.error e, ms, o) => (.error e, ms, o)
        | (.ok _, ms, o) => (.ok (), { ms with brk_ptr := ptr }, o)
  else
    if ptr < ms.brk_init then (.error (), ms, o)
    else
      let first := alignUp ptr PAGE_SIZE
      let pages := divCeil (first - ptr) PAGE_SIZE
      if pages = 0 then (.ok (), ms, o)
      else
        match ms.unmap first pages true o with
        | (.error e, ms, o) => (.error e, ms, o)
        | (.ok _, ms, o) => (.ok (), { ms with brk_ptr := ptr }, o)

/-- `MemSpace::handle_page_fault`: decides whether the faulting process may
continue; on the continue path the source resolves the fault through the
OOM-retrying helper, which never declines, so only the returned decision is
modelled. -/
def MemSpace.handle_page_fault (ms : MemSpace) (virt_addr : Addr) (code : Nat) : Bool :=
  if code &&& PAGE_FAULT_PRESENT == 0 then false
  else
    match ms.state.get_mapping_for_ptr virt_addr with
    | none => false
    | some mapping =>
      let can_write_mapping := mapping.get_flags &&& MAPPING_FLAG_WRITE != 0
      if code &&& PAGE_FAULT_WRITE != 0 && !can_write_mapping then false
      else
        let userspace_mapping := mapping.get_flags &&& MAPPING_FLAG_USER != 0
        if code &&& PAGE_FAULT_USER != 0 && !userspace_mapping then false
        else true

/-- The `while i < size` loop of `can_access`: after a successful check the
index advances by the full size of the covering mapping. `fuel` bounds the
iterations; every pass advances `i` by at least one page, so `size + 1` fuel
is never exhausted on inputs the source reaches. -/
def canAccessLoop (s : MemSpaceState) (ptr size : Nat) (user write : Bool) :
    Nat → Nat → Bool
  | _, 0 => true
  | i, fuel + 1 =>
    if i < size then
      match s.get_mapping_for_ptr (ptr + i) with
      | none => false
      | some mapping =>
        let flags := mapping.get_flags
        if write && flags &&& MAPPING_FLAG_WRITE == 0 then false
        else if user && flags &&& MAPPING_FLAG_USER == 0 then false
        else canAccessLoop s ptr size user write (i + mapping.get_size * PAGE_SIZE) fuel
    else true

/-- `MemSpace::can_access`: tells whether the `size` bytes at `ptr` can be
accessed with the given user/write requirements. -/
def MemSpace.can_access (ms : MemSpace) (ptr : Addr) (size : Nat) (user write : Bool) : Bool :=
  canAccessLoop ms.state ptr size user write 0 (size + 1)

/-- Total pages held across `mappings_by_address` (the quantity `vmem_usage`
is specified to equal). -/
def MemSpaceState.totalMappedPages (s : MemSpaceState) : Nat :=
  s.mappings.foldl (fun a e => a + e.2.get_size) 0

/-- Two page ranges (begin address, size in pages) overlap. -/
def pagesOverlap (b₁ : Addr) (s₁ : Nat) (b₂ : Addr) (s₂ : Nat) : Bool :=
  b₁ < b₂ + s₂ * PAGE_SIZE && b₂ < b₁ + s₁ * PAGE_SIZE

/-- Some mapping of the state overlaps some gap of the state. -/
def MemSpaceState.someMappingOverlapsGap (s : MemSpaceState) : Bool :=
  s.mappings.any fun m => s.gaps.any fun g =>
    pagesOverlap m.2.begin m.2.size g.2.begin g.2.size

/-- The deny condition of `handle_page_fault` as the claim states it: no
covering mapping, or a write fault on a mapping without `WRITE`, or a
user-mode fault on a mapping without `USER`. -/
def faultDenySpec (s : MemSpaceState) (addr : Addr) (code : Nat) : Bool :=
  match s.get_mapping_for_ptr addr with
  | none => true
  | some m =>
    (code &&& PAGE_FAULT_WRITE != 0 && m.get_flags &&& MAPPING_FLAG_WRITE == 0) ||
    (code &&& PAGE_FAULT_USER != 0 && m.get_flags &&& MAPPING_FLAG_USER == 0)

/-- One `gaps_size` entry is backed by `gaps`: the address it names holds a
gap of the recorded size. -/
def sizeEntryOk (gaps : List (Addr × MemGap)) (e : (Nat × Addr) × Unit) : Bool :=
  match aGet e.1.2 gaps with
  | some g => g.get_size == e.1.1
  | none => false

/-- The two gap indices are in sync: every `(size, begin)` key of `gaps_size`
names a gap of `gaps` with that begin and size, and every gap of `gaps` has
its `(size, begin)` key in `gaps_size` (claim C9's invariant). -/
def MemSpaceState.gapSync (s : MemSpaceState) : Bool :=
  (s.gaps_size.all fun e => sizeEntryOk s.gaps e) &&
  (s.gaps.all fun e => s.gaps_size.any fun e' => e'.1 == (e.2.get_size, e.1))

section AssocLemmas

variable {κ α : Type} [DecidableEq κ]

theorem aGet_aInsert (lt : κ → κ → Bool) (k : κ) (v : α) (l : List (κ × α)) :
    aGet k (aInsert lt k v l) = some v := by
  induction l with
  | nil => simp [aInsert, aGet]
  | cons hd tl ih =>
    rcases hd with ⟨a, b⟩
    by_cases h₁ : lt k a
    · simp [aInsert, h₁, aGet]
    · by_cases h₂ : k = a
      · subst h₂
        simp [aInsert, h₁, aGet]
      · simp [aInsert, h₁, h₂, aGet, ih]

theorem aGet_aInsert_ne (lt : κ → κ → Bool) (k k' : κ) (v : α) (l : List (κ × α))
    (h : k' ≠ k) : aGet k' (aInsert lt k v l) = aGet k' l := by
  induction l with
  | nil => simp [aInsert, aGet, h]
  | cons hd tl ih =>
    rcases hd with ⟨a, b⟩
    by_cases h₁ : lt k a
    · simp [aInsert, h₁, aGet, h]
    · by_cases h₂ : k = a
      · subst h₂
        simp [aInsert, h₁, aGet, h]
      · by_cases h₃ : k' = a
        · subst h₃
          simp [aInsert, h₁, h₂, aGet]
        · simp [aInsert, h₁, h₂, aGet, h₃, ih]

theorem mem_aInsert_elim (lt : κ → κ → Bool) (k : κ) (v : α) (l : List (κ × α))
    (x : κ × α) (hx : x ∈ aInsert lt k v l) : x = (k, v) ∨ x ∈ l := by
  induction l with
  | nil => simpa [aInsert] using hx
  | cons hd tl ih =>
    rcases hd with ⟨a, b⟩
    by_cases h₁ : lt k a
    · simp only [aInsert, h₁, if_true] at hx
      rcases List.mem_cons.mp hx with h | h
      · exact Or.inl h
      · exact Or.inr h
    · by_cases h₂ : k = a
      · subst h₂
        simp only [aInsert, h₁, if_false, if_pos rfl] at hx
        rcases List.mem_cons.mp hx with h | h
        · exact Or.inl h
        · exact Or.inr (List.mem_cons_of_mem _ h)
      · simp only [aInsert, h₁, h₂, if_false] at hx
        rcases List.mem_cons.mp hx with h | h
        · exact Or.inr (h ▸ List.mem_cons_self _ _)
        · rcases ih h with h' | h'
          · exact Or.inl h'
          · exact Or.inr (List.mem_cons_of_mem _ h')

theorem self_mem_aInsert (lt : κ → κ → Bool) (k : κ) (v : α) (l : List (κ × α)) :
    (k, v) ∈ aInsert lt k v l := by
  induction l with
  | nil => simp [aInsert]
  | cons hd tl ih =>
    rcases hd with ⟨a, b⟩
    by_cases h₁ : lt k a
    · simp [aInsert, h₁]
    · by_cases h₂ : k = a
      · subst h₂
        simp [aInsert, h₁]
      · simp only [aInsert, h₁, h₂, if_false]
        exact List.mem_cons_of_mem _ ih

theorem mem_aInsert_of_mem (lt : κ → κ → Bool) (k : κ) (v : α) (l : List (κ × α))
    (x : κ × α) (hx : x ∈ l) (hk : x.1 ≠ k) : x ∈ aInsert lt k v l := by
  induction l with
  | nil => cases hx
  | cons hd tl ih =>
    rcases hd with ⟨a, b⟩
    by_cases h₁ : lt k a
    · simp only [aInsert, h₁, if_true]
      exact List.mem_cons_of_mem _ hx
    · by_cases h₂ : k = a
      · subst h₂
        simp only [aInsert, h₁, if_false, if_pos rfl]
        rcases List.mem_cons.mp hx with h | h
        · exact absurd (by rw [h]) hk
        · exact List.mem_cons_of_mem _ h
      · simp only [aInsert, h₁, h₂, if_false]
        rcases List.mem_cons.mp hx with h | h
        · exact h ▸ List.mem_cons_self _ _
        · exact List.mem_cons_of_mem _ (ih h)

theorem aGet_none_forall (k : κ) (l : List (κ × α)) (h : aGet k l = none) :
    ∀ x ∈ l, x.1 ≠ k := by
  induction l with
  | nil => intro x hx; cases hx
  | cons hd tl ih =>
    intro x hx
    rcases hd with ⟨a, b⟩
    by_cases h₂ : k = a
    · subst h₂
      simp [aGet] at h
    · simp [aGet, h₂] at h
      rcases List.mem_cons.mp hx with hh | hh
      · rw [hh]; exact fun he => h₂ he.symm
      · exact ih h x hh

theorem aRemove_aInsert (lt : κ → κ → Bool) (k : κ) (v : α) (l : List (κ × α))
    (h : aGet k l = none) : aRemove k (aInsert lt k v l) = l := by
  induction l with
  | nil => simp [aInsert, aRemove]
  | cons hd tl ih =>
    rcases hd with ⟨a, b⟩
    by_cases h₂ : k = a
    · subst h₂
      simp [aGet] at h
    · simp only [aGet, h₂, if_false] at h
      by_cases h₁ : lt k a
      · simp [aInsert, h₁, aRemove, h₂]
      · simp [aInsert, h₁, h₂, aRemove, ih h]

theorem aPop_some (k : κ) (l : List (κ × α)) (v : α) (l' : List (κ × α))
    (h : aPop k l = some (v, l')) : aGet k l = some v ∧ l' = aRemove k l := by
  induction l generalizing l' with
  | nil => simp [aPop] at h
  | cons hd tl ih =>
    rcases hd with ⟨a, b⟩
    by_cases h₂ : k = a
    · subst h₂
      simp [aPop] at h
      simp [aGet, aRemove, h.1, h.2]
    · simp only [aPop, h₂, if_false] at h
      rcases hp : aPop k tl with _ | p
      · rw [hp] at h; cases h
      · rcases p with ⟨v'', t''⟩
        rw [hp] at h
        simp only [Option.some.injEq, Prod.mk.injEq] at h
        rcases h with ⟨hv, hl⟩
        have hih := ih t'' (by rw [hp, hv])
        refine ⟨by simp [aGet, h₂, hih.1], ?_⟩
        simp [aRemove, h₂, ← hl, hih.2]

theorem mem_of_mem_aRemove (k : κ) (l : List (κ × α)) (x : κ × α)
    (hx : x ∈ aRemove k l) : x ∈ l := by
  induction l with
  | nil => simp [aRemove] at hx
  | cons hd tl ih =>
    rcases hd with ⟨a, b⟩
    by_cases h₂ : k = a
    · subst h₂
      simp only [aRemove, if_pos rfl] at hx
      exact List.mem_cons_of_mem _ hx
    · simp only [aRemove, h₂, if_false] at hx
      rcases List.mem_cons.mp hx with h | h
      · exact h ▸ List.mem_cons_self _ _
      · exact List.mem_cons_of_mem _ (ih h)

theorem mem_aRemove_of_ne (k : κ) (l : List (κ × α)) (x : κ × α)
    (hx : x ∈ l) (hk : x.1 ≠ k) : x ∈ aRemove k l := by
  induction l with
  | nil => cases hx
  | cons hd tl ih =>
    rcases hd with ⟨a, b⟩
    by_cases h₂ : k = a
    · subst h₂
      simp only [aRemove, if_pos rfl]
      rcases List.mem_cons.mp hx with h | h
      · exact absurd (by rw [h]) hk
      · exact h
    · simp only [aRemove, h₂, if_false]
      rcases List.mem_cons.mp hx with h | h
      · exact h ▸ List.mem_cons_self _ _
      · exact List.mem_cons_of_mem _ (ih h)

theorem aGet_aRemove_ne (k k' : κ) (l : List (κ × α)) (h : k' ≠ k) :
    aGet k' (aRemove k l) = aGet k' l := by
  induction l with
  | nil => simp [aRemove]
  | cons hd tl ih =>
    rcases hd with ⟨a, b⟩
    by_cases h₂ : k = a
    · subst h₂
      simp [aRemove, aGet, h]
    · by_cases h₃ : k' = a
      · subst h₃
        simp [aRemove, h₂, aGet]
      · simp [aRemove, h₂, aGet, h₃, ih]

theorem key_ne_of_mem_aRemove (k : κ) (l : List (κ × α)) (x : κ × α) (v : α)
    (hd : (l.map Prod.fst).Nodup) (hg : aGet k l = some v) (hx : x ∈ aRemove k l) :
    x.1 ≠ k := by
  induction l with
  | nil => simp [aGet] at hg
  | cons e tl ih =>
    rcases e with ⟨a, b⟩
    have hcons : a ∉ tl.map Prod.fst ∧ (tl.map Prod.fst).Nodup :=
      List.nodup_cons.mp hd
    by_cases h₂ : k = a
    · subst h₂
      simp [aRemove] at hx
      intro hc
      exact hcons.1 (hc ▸ List.mem_map_of_mem Prod.fst hx)
    · simp only [aGet, h₂, if_false] at hg
      simp only [aRemove, h₂, if_false] at hx
      rcases List.mem_cons.mp hx with h | h
      · rw [h]; exact fun hc => h₂ hc.symm
      · exact ih hcons.2 hg h

theorem aGet_some_mem (k : κ) (l : List (κ × α)) (v : α) (h : aGet k l = some v) :
    (k, v) ∈ l := by
  induction l with
  | nil => simp [aGet] at h
  | cons hd tl ih =>
    rcases hd with ⟨a, b⟩
    by_cases h₂ : k = a
    · subst h₂
      simp [aGet] at h
      simp [h]
    · simp only [aGet, h₂, if_false] at h
      exact List.mem_cons_of_mem _ (ih h)

theorem mem_aGet_isSome (k : κ) (l : List (κ × α)) (v : α) (h : (k, v) ∈ l) :
    ∃ v', aGet k l = some v' := by
  induction l with
  | nil => cases h
  | cons hd tl ih =>
    rcases hd with ⟨a, b⟩
    by_cases h₂ : k = a
    · subst h₂
      exact ⟨b, by simp [aGet]⟩
    · rcases List.mem_cons.mp h with hh | hh
      · exact absurd (congrArg Prod.fst hh) h₂
      · rcases ih hh with ⟨v', hv⟩
        exact ⟨v', by simp [aGet, h₂, hv]⟩

end AssocLemmas

/-- The flag set `WRITE | USER` used throughout the scenarios. -/
def wuFlags : Nat := MAPPING_FLAG_WRITE ||| MAPPING_FLAG_USER

/-- A fresh space after a successful `map(None, 1, WRITE|USER, Normal)`:
mapping `[0x1000, 0x2000)`, gap `[0x2000, PROCESS_END)`. -/
def spaceMapped1 : MemSpace := (MemSpace.fresh.map .None 1 wuFlags .Normal Oracle.ok).2.1

/-- A fresh space after a successful `map(None, 2, WRITE|USER, Normal)`:
mapping `[0x1000, 0x3000)`, gap `[0x3000, PROCESS_END)`. -/
def spaceMapped2 : MemSpace := (MemSpace.fresh.map .None 2 wuFlags .Normal Oracle.ok).2.1

/-- A fresh space after a successful `map(None, 3, WRITE|USER, Normal)`:
mapping `[0x1000, 0x4000)`, gap `[0x4000, PROCESS_END)`. -/
def spaceMapped3 : MemSpace := (MemSpace.fresh.map .None 3 wuFlags .Normal Oracle.ok).2.1

/-- The spec's heap scenario after the grow: `set_brk_init(0x40000000)`
followed by a successful `set_brk_ptr(0x40003000)` (3 pages mapped at
`0x40000000`). -/
def spaceBrkGrown : MemSpace :=
  ((MemSpace.fresh.set_brk_init 0x40000000).set_brk_ptr 0x40003000 Oracle.ok).2.1

/-- **C1** (code-bug evidence). On a fresh memory space, `map(None, 1,
WRITE|USER, Normal)` with out-of-memory injected at the first staged gap-index
insert returns an allocation error, yet the live gap indices are left empty:
`map` removes the consumed gap from the live state before the fallible staged
inserts and does not restore it on failure, so the live state is not unchanged
as the claim (and the source's own transaction documentation) requires. -/
theorem c1_map_alloc_failure_mutates_live_state :
    (MemSpace.fresh.map .None 1 wuFlags .Normal [false]).1 = .error () ∧
    (MemSpace.fresh.map .None 1 wuFlags .Normal [false]).2.1.state.gaps = [] ∧
    (MemSpace.fresh.map .None 1 wuFlags .Normal [false]).2.1.state.gaps_size = [] ∧
    MemSpace.fresh.state.gaps ≠ [] ∧
    MemSpace.fresh.state.gaps_size ≠ [] := by decide

/-- **C2** (code-bug evidence). On a fresh memory space,
`map(Fixed(0x2000), 1, WRITE|USER, Normal)` succeeds and returns `0x2000`, but
the resulting live state keeps the full gap `[0x1000, PROCESS_END)` while
holding the new mapping `[0x2000, 0x3000)` inside it: a mapping overlaps a
gap after a single successful public operation, refuting the claimed
invariant (the fictive gap of the `Fixed` path never splits the real gap). -/
theorem c2_fixed_map_overlaps_live_gap :
    (MemSpace.fresh.map (.Fixed 0x2000) 1 wuFlags .Normal Oracle.ok).1 = .ok 0x2000 ∧
    (MemSpace.fresh.map (.Fixed 0x2000) 1 wuFlags .Normal
        Oracle.ok).2.1.state.someMappingOverlapsGap = true := by decide

/-- **C3** (code-bug evidence). After mapping 3 pages at `0x1000`,
`unmap(0x2000, 1, brk = true)` succeeds and removes one page from the
mappings (3 pages become 2), but `vmem_usage` stays 3: the freed-page counter
is only accumulated on the gap-creation path, which the `brk` flag skips, so
`vmem_usage` is not decremented and no longer equals the total mapped pages. -/
theorem c3_brk_unmap_keeps_vmem_usage :
    (spaceMapped3.unmap 0x2000 1 true Oracle.ok).1 = .ok () ∧
    spaceMapped3.vmem_usage = 3 ∧
    spaceMapped3.state.totalMappedPages = 3 ∧
    (spaceMapped3.unmap 0x2000 1 true Oracle.ok).2.1.state.totalMappedPages = 2 ∧
    (spaceMapped3.unmap 0x2000 1 true Oracle.ok).2.1.vmem_usage = 3 := by decide

/-- **C4** (code-bug evidence). With `PAGE_SIZE = 4096`, after
`set_brk_init(0x40000000)` and a successful `set_brk_ptr(0x40003000)` (3 pages
mapped at `0x40000000`), the call `set_brk_ptr(0x40001000)` returns `Ok` but
unmaps nothing and leaves `get_brk_ptr` at `0x40003000`: the shrink path
computes its page count from the alignment remainder of the new pointer (zero
here, as the pointer is page-aligned) instead of from the distance to the old
break, and its zero-pages early return also skips the `brk_ptr` update. -/
theorem c4_brk_shrink_is_noop :
    spaceBrkGrown.get_brk_ptr = 0x40003000 ∧
    spaceBrkGrown.state.totalMappedPages = 3 ∧
    (spaceBrkGrown.set_brk_ptr 0x40001000 Oracle.ok).1 = .ok () ∧
    (spaceBrkGrown.set_brk_ptr 0x40001000 Oracle.ok).2.1.get_brk_ptr = 0x40003000 ∧
    (spaceBrkGrown.set_brk_ptr 0x40001000 Oracle.ok).2.1.state.totalMappedPages = 3 := by
  decide

/-- **C5** (code-bug evidence). In `spaceMapped1` a gap far larger than one
page exists and the hint address `0x1000` is page-aligned, yet
`map(Hint(0x1000), 1, WRITE|USER, Normal)` fails with an allocation error
because the hinted address lies inside a mapping rather than a gap: instead of
ignoring the unusable hint and selecting another address (as the constraint's
own documentation promises), the code errors out. -/
theorem c5_hint_fails_despite_large_gap :
    (spaceMapped1.state.get_gap 1).isSome = true ∧
    (0x1000 : Nat) % PAGE_SIZE = 0 ∧
    (spaceMapped1.map (.Hint 0x1000) 1 wuFlags .Normal Oracle.ok).1 = .error () ∧
    (spaceMapped1.map (.Hint 0x1000) 1 wuFlags .Normal Oracle.ok).2.1 = spaceMapped1 := by
  decide

/-- **C7** (code-bug evidence). In `spaceMapped2` (single mapping
`[0x1000, 0x3000)` with `WRITE|USER`), `can_access(0x2000, 0x1001, false,
false)` returns `true`, although the byte at `0x3000` lies inside the
requested range `[0x2000, 0x2000 + 0x1001)` and is covered by no mapping:
after a hit the scan advances by the covering mapping's full size instead of
by the distance from the probe to the mapping's end, skipping the uncovered
tail of the range. -/
theorem c7_can_access_skips_unmapped_byte :
    spaceMapped2.can_access 0x2000 0x1001 false false = true ∧
    spaceMapped2.state.get_mapping_for_ptr 0x3000 = none ∧
    (0x2000 : Nat) ≤ 0x3000 ∧ (0x3000 : Nat) < 0x2000 + 0x1001 := by decide

/-- **C6** (counterexample). In `spaceMapped1` the address `0x1000` is
covered by a mapping holding both `WRITE` and `USER`, and the fault code `0`
raises neither the WRITE nor the USER bit, so the claim's deny condition is
false and the claim requires `handle_page_fault` to return `true`; the code
returns `false` because the fault code's PRESENT bit is clear. -/
theorem c6_nonpresent_fault_on_valid_mapping_denied :
    spaceMapped1.handle_page_fault 0x1000 0 = false ∧
    faultDenySpec spaceMapped1.state 0x1000 0 = false := by decide

/-- **C6** (amended). `handle_page_fault(virt_addr, code)` returns `false`
exactly when the fault code's PRESENT bit is clear, or no mapping covers
`virt_addr`, or the code's WRITE bit is set while the covering mapping lacks
`MAPPING_FLAG_WRITE`, or the code's USER bit is set while the mapping lacks
`MAPPING_FLAG_USER`; in every other case it returns `true`. -/
theorem c6_page_fault_decision (ms : MemSpace) (virt_addr : Addr) (code : Nat) :
    ms.handle_page_fault virt_addr code =
      ((code &&& PAGE_FAULT_PRESENT != 0) && !faultDenySpec ms.state virt_addr code) := by
  simp only [MemSpace.handle_page_fault, faultDenySpec]
  cases hm : ms.state.get_mapping_for_ptr virt_addr with
  | none =>
    by_cases hp : code &&& PAGE_FAULT_PRESENT = 0 <;> simp [hp]
  | some m =>
    by_cases hp : code &&& PAGE_FAULT_PRESENT = 0 <;>
      by_cases hw : code &&& PAGE_FAULT_WRITE = 0 <;>
        by_cases hu : code &&& PAGE_FAULT_USER = 0 <;>
          by_cases hfw : m.get_flags &&& MAPPING_FLAG_WRITE = 0 <;>
            by_cases hfu : m.get_flags &&& MAPPING_FLAG_USER = 0 <;>
              simp [hp, hw, hu, hfw, hfu]

/-- **C8** (counterexample). For the `Static` residence over the two frames
`[0xA000, 0xB000]`, advancing by `offset_add(1)` and requesting page `0`
yields frame `0xA000` — `offset_add` leaves `Static` unchanged — whereas the
claim requires page `1 + 0` of the original, i.e. the pre-existing frame
`0xB000`. -/
theorem c8_static_offset_add_counterexample :
    (MapResidence.Static [0xA000, 0xB000]).offset_add 1 =
      .Static [0xA000, 0xB000] ∧
    ((MapResidence.Static [0xA000, 0xB000]).offset_add 1).alloc_page 0
        (PhysState.mk [] [] 0) Oracle.ok =
      some (.ok 0xA000, PhysState.mk [] [] 0, Oracle.ok) ∧
    (0xA000 : Addr) ≠ 0xB000 := by decide

/-- **C8** (amended). `offset_add` composes additively for every residence,
and for `File` and `Swap` it advances the file/slot offset so that page `i`
of the advanced residence denotes page `k + i` of the original; for `Normal`
and `Static` it is the identity, so an advanced `Static` residence still
yields the unshifted pre-existing frame `pages[i]` (not `pages[k + i]`). -/
theorem c8_offset_add_semantics :
    (∀ (r : MapResidence) (k j : Nat),
        (r.offset_add k).offset_add j = r.offset_add (k + j)) ∧
    (∀ (pages : List Addr) (k : Nat),
        (MapResidence.Static pages).offset_add k = .Static pages) ∧
    (∀ (k : Nat), MapResidence.Normal.offset_add k = .Normal) ∧
    (∀ (pages : List Addr) (k i : Nat) (st : PhysState) (o : Oracle),
        i < pages.length →
        ((MapResidence.Static pages).offset_add k).alloc_page i st o =
          some (.ok (pages.getD i 0), st, o)) := by
  refine ⟨?_, ?_, ?_, ?_⟩
  · intro r k j
    cases r <;> simp [MapResidence.offset_add, Nat.add_mul, Nat.add_assoc]
  · intro pages k
    rfl
  · intro k
    rfl
  · intro pages k i st o hi
    simp [MapResidence.offset_add, MapResidence.alloc_page, hi]

/-- Witness for `c8_offset_add_semantics`: advancing `Static [0xA000, 0xB000]`
by 3 pages and requesting page 1 yields the unshifted pre-existing frame. -/
theorem c8_offset_add_semantics_witness :
    (1 : Nat) < [(0xA000 : Addr), 0xB000].length ∧
    ((MapResidence.Static [0xA000, 0xB000]).offset_add 3).alloc_page 1
        (PhysState.mk [] [] 0) Oracle.ok =
      some (.ok ([(0xA000 : Addr), 0xB000].getD 1 0), PhysState.mk [] [] 0, Oracle.ok) :=
  ⟨by decide,
   c8_offset_add_semantics.2.2.2 [0xA000, 0xB000] 3 1 (PhysState.mk [] [] 0) Oracle.ok
     (by decide)⟩

/-- A two-page gap at `0x1000` with its matching size-index entry: the gap
indices are in sync. -/
def gapState2 : MemSpaceState :=
  ⟨[(0x1000, ⟨0x1000, 2⟩)], [((2, 0x1000), ())], []⟩

/-- **C9** (counterexample). `gapState2` satisfies the sync invariant, yet
`insert_gap` of a five-page gap beginning at the same address `0x1000`
succeeds and breaks it: the address-index insert replaces the existing
two-page gap, but the stale `(2, 0x1000)` entry stays in `gaps_size`, so the
claimed preservation fails at this input. -/
theorem c9_insert_gap_duplicate_begin_desync :
    gapState2.gapSync = true ∧
    (gapState2.insert_gap ⟨0x1000, 5⟩ Oracle.ok).1 = .ok () ∧
    ((gapState2.insert_gap ⟨0x1000, 5⟩ Oracle.ok).2.1).gapSync = false := by decide

/-- **C9** (amended). Provided no gap already begins at the new gap's begin
address, `insert_gap` preserves the sync invariant between `gaps` and
`gaps_size`, and on failure (either index insert reporting out-of-memory) it
leaves the state exactly unchanged — in particular the first insert is rolled
back when the second fails; `remove_gap` preserves the invariant whenever the
indices have the binary tree's key-uniqueness property. An insert whose begin
address is already occupied replaces the address-index entry without purging
the stale size-index entry. -/
theorem c9_gap_index_sync :
    (∀ (s : MemSpaceState) (gap : MemGap) (o : Oracle),
        s.gapSync = true → aGet gap.get_begin s.gaps = none →
        ((s.insert_gap gap o).1 = .error () → (s.insert_gap gap o).2.1 = s) ∧
        ((s.insert_gap gap o).1 = .ok () → ((s.insert_gap gap o).2.1).gapSync = true)) ∧
    (∀ (s : MemSpaceState) (b : Addr),
        s.gapSync = true → (s.gaps.map Prod.fst).Nodup →
        (s.gaps_size.map Prod.fst).Nodup →
        ((s.remove_gap b).2).gapSync = true) := by
  constructor
  · intro s gap o hsync hfresh
    rcases ht : o.tick with ⟨b₁, o₁⟩
    cases b₁ with
    | false =>
      have hrun : s.insert_gap gap o = (.error (), s, o₁) := by
        simp [MemSpaceState.insert_gap, ht]
      refine ⟨fun _ => by rw [hrun], fun h => ?_⟩
      rw [hrun] at h
      simp at h
    | true =>
      rcases ht2 : o₁.tick with ⟨b₂, o₂⟩
      cases b₂ with
      | false =>
        have hrun : s.insert_gap gap o =
            (.error (), ⟨aRemove gap.get_begin (aInsert natLt gap.get_begin gap s.gaps),
              s.gaps_size, s.mappings⟩, o₂) := by
          simp [MemSpaceState.insert_gap, ht, ht2]
        refine ⟨fun _ => ?_, fun h => ?_⟩
        · rw [hrun]
          show (⟨aRemove gap.get_begin (aInsert natLt gap.get_begin gap s.gaps),
            s.gaps_size, s.mappings⟩ : MemSpaceState) = s
          rw [aRemove_aInsert natLt gap.get_begin gap s.gaps hfresh]
        · rw [hrun] at h
          simp at h
      | true =>
        have hrun : s.insert_gap gap o =
            (.ok (), ⟨aInsert natLt gap.get_begin gap s.gaps,
              aInsert sizeLt (gap.get_size, gap.get_begin) () s.gaps_size,
              s.mappings⟩, o₂) := by
          simp [MemSpaceState.insert_gap, ht, ht2]
        refine ⟨fun h => ?_, fun _ => ?_⟩
        · rw [hrun] at h
          simp at h
        · rw [hrun]
          show MemSpaceState.gapSync ⟨aInsert natLt gap.get_begin gap s.gaps,
            aInsert sizeLt (gap.get_size, gap.get_begin) () s.gaps_size,
            s.mappings⟩ = true
          simp only [MemSpaceState.gapSync, Bool.and_eq_true, List.all_eq_true,
            List.any_eq_true] at hsync ⊢
          rcases hsync with ⟨hs₁, hs₂⟩
          constructor
          · intro e he
            rcases mem_aInsert_elim sizeLt (gap.get_size, gap.get_begin) () s.gaps_size e he
              with he' | he'
            · subst he'
              simp [sizeEntryOk, aGet_aInsert]
            · have h₁ := hs₁ e he'
              simp only [sizeEntryOk] at h₁ ⊢
              rcases hg : aGet e.1.2 s.gaps with _ | g
              · rw [hg] at h₁; cases h₁
              · rw [hg] at h₁
                have hne : e.1.2 ≠ gap.get_begin := by
                  intro hc
                  rw [hc, hfresh] at hg
                  cases hg
                rw [aGet_aInsert_ne natLt gap.get_begin e.1.2 gap s.gaps hne, hg]
                exact h₁
          · intro e he
            rcases mem_aInsert_elim natLt gap.get_begin gap s.gaps e he with he' | he'
            · subst he'
              exact ⟨((gap.get_size, gap.get_begin), ()),
                self_mem_aInsert sizeLt (gap.get_size, gap.get_begin) () s.gaps_size,
                by simp⟩
            · rcases hs₂ e he' with ⟨e', he'', heq⟩
              have hne : e'.1 ≠ (gap.get_size, gap.get_begin) := by
                intro hc
                have hb : e.1 ≠ gap.get_begin :=
                  aGet_none_forall gap.get_begin s.gaps hfresh e he'
                apply hb
                have heq₁ : e'.1 = (e.2.get_size, e.1) := by simpa using heq
                rw [hc] at heq₁
                exact (congrArg Prod.snd heq₁).symm
              exact ⟨e',
                mem_aInsert_of_mem sizeLt (gap.get_size, gap.get_begin) () s.gaps_size e'
                  he'' hne, heq⟩
  · intro s b hsync hnd hnds
    rcases hp : aPop b s.gaps with _ | p
    · simpa [MemSpaceState.remove_gap, hp] using hsync
    · rcases p with ⟨g, gaps'⟩
      rcases aPop_some b s.gaps g gaps' hp with ⟨hget, hrm⟩
      subst hrm
      have hrun : (s.remove_gap b).2 =
          ⟨aRemove b s.gaps, aRemove (g.get_size, b) s.gaps_size, s.mappings⟩ := by
        simp [MemSpaceState.remove_gap, hp]
      rw [hrun]
      simp only [MemSpaceState.gapSync, Bool.and_eq_true, List.all_eq_true,
        List.any_eq_true] at hsync ⊢
      rcases hsync with ⟨hs₁, hs₂⟩
      have hmem : (b, g) ∈ s.gaps := aGet_some_mem b s.gaps g hget
      rcases hs₂ (b, g) hmem with ⟨es, hes, heqs⟩
      have heqs' : es.1 = (g.get_size, b) := by simpa using heqs
      rcases mem_aGet_isSome es.1 s.gaps_size es.2 (by
        rw [show (es.1, es.2) = es from rfl]; exact hes) with ⟨vs, hvs⟩
      rw [heqs'] at hvs
      constructor
      · intro e he
        have hin : e ∈ s.gaps_size := mem_of_mem_aRemove (g.get_size, b) s.gaps_size e he
        have hkey : e.1 ≠ (g.get_size, b) :=
          key_ne_of_mem_aRemove (g.get_size, b) s.gaps_size e vs hnds hvs he
        have h₁ := hs₁ e hin
        simp only [sizeEntryOk] at h₁ ⊢
        rcases hg : aGet e.1.2 s.gaps with _ | g'
        · rw [hg] at h₁; cases h₁
        · rw [hg] at h₁
          have hne : e.1.2 ≠ b := by
            intro hc
            rw [hc, hget] at hg
            cases hg
            apply hkey
            have hsz : g.get_size = e.1.1 := by simpa using h₁
            show (e.1.1, e.1.2) = (g.get_size, b)
            rw [hc, ← hsz]
          rw [aGet_aRemove_ne b e.1.2 s.gaps hne, hg]
          exact h₁
      · intro e he
        have hin : e ∈ s.gaps := mem_of_mem_aRemove b s.gaps e he
        have hkey : e.1 ≠ b := key_ne_of_mem_aRemove b s.gaps e g hnd hget he
        rcases hs₂ e hin with ⟨e', he', heq⟩
        have heq' : e'.1 = (e.2.get_size, e.1) := by simpa using heq
        have hne : e'.1 ≠ (g.get_size, b) := by
          rw [heq']
          intro hc
          exact hkey (congrArg Prod.snd hc)
        exact ⟨e', mem_aRemove_of_ne (g.get_size, b) s.gaps_size e' he' hne, heq⟩

/-- Witness for `c9_gap_index_sync`: on `gapState2`, inserting a gap at the
fresh address `0x3000` with out-of-memory injected at the size-index insert
leaves the state unchanged, and removing the gap at `0x1000` keeps the
indices in sync. -/
theorem c9_gap_index_sync_witness :
    (gapState2.insert_gap ⟨0x3000, 1⟩ [true, false]).2.1 = gapState2 ∧
    ((gapState2.remove_gap 0x1000).2).gapSync = true := by
  constructor
  · exact (c9_gap_index_sync.1 gapState2 ⟨0x3000, 1⟩ [true, false] (by decide)
      (by decide)).1 (by decide)
  · exact c9_gap_index_sync.2 gapState2 0x1000 (by decide) (by decide) (by decide)

/-- **C10.** `MapResidence::alloc` is atomic on failure: starting from any
physical state whose next fresh frame has no reference-count entry, a failed
call (whether the buddy allocation or the reference-count increment fails)
leaves the allocated-frame set and the reference-count table unchanged — the
freshly allocated frame is freed before the error is returned — and a
successful call returns the fresh frame, now allocated and with reference
count 1. -/
theorem c10_residence_alloc_atomic (st : PhysState) (o : Oracle)
    (hfresh : aGet st.next st.counts = none) :
    (∀ (st' : PhysState) (o' : Oracle),
        MapResidence.alloc st o = (.error (), st', o') →
        st'.allocated = st.allocated ∧ st'.counts = st.counts) ∧
    (∀ (f : Addr) (st' : PhysState) (o' : Oracle),
        MapResidence.alloc st o = (.ok f, st', o') →
        f = st.next ∧ f ∈ st'.allocated ∧ aGet f st'.counts = some 1) := by
  rcases ht : o.tick with ⟨b₁, o₁⟩
  cases b₁ with
  | false =>
    constructor
    · intro st' o' h
      simp [MapResidence.alloc, buddyAlloc, ht] at h
      simp [← h.1]
    · intro f st' o' h
      simp [MapResidence.alloc, buddyAlloc, ht] at h
  | true =>
    rcases ht2 : o₁.tick with ⟨b₂, o₂⟩
    cases b₂ with
    | false =>
      constructor
      · intro st' o' h
        simp [MapResidence.alloc, buddyAlloc, ht, prcIncrement, hfresh, ht2,
          buddyFree] at h
        rw [← h.1]
        simp [List.erase_cons_head]
      · intro f st' o' h
        simp [MapResidence.alloc, buddyAlloc, ht, prcIncrement, hfresh, ht2] at h
    | true =>
      constructor
      · intro st' o' h
        simp [MapResidence.alloc, buddyAlloc, ht, prcIncrement, hfresh, ht2] at h
      · intro f st' o' h
        simp [MapResidence.alloc, buddyAlloc, ht, prcIncrement, hfresh, ht2] at h
        refine ⟨h.1.symm, ?_, ?_⟩
        · rw [← h.2.1, ← h.1]
          simp
        · rw [← h.2.1, ← h.1]
          simp [aGet_aInsert]

/-- Witness for `c10_residence_alloc_atomic`: from the empty physical state,
with the buddy allocation succeeding and the reference-count increment
failing, the failed call leaves no frame allocated and no count entry. -/
theorem c10_residence_alloc_atomic_witness :
    (MapResidence.alloc (PhysState.mk [] [] 0x5000) [true, false]).2.1.allocated = [] ∧
    (MapResidence.alloc (PhysState.mk [] [] 0x5000) [true, false]).2.1.counts = [] :=
  (c10_residence_alloc_atomic (PhysState.mk [] [] 0x5000) [true, false] (by decide)).1
    (MapResidence.alloc (PhysState.mk [] [] 0x5000) [true, false]).2.1
    (MapResidence.alloc (PhysState.mk [] [] 0x5000) [true, false]).2.2 (by decide)

end Maestro
